import Mathlib

/-!
Verification of the CASM instruction data model: the `op_size` law and the
canonical textual rendering of instructions, following
`crates/cairo-lang-casm/src/instructions.rs`.

The operand model (cell references, indirect-or-immediate operands, result
operands) and the hint subsystem are external collaborators of this file of
the repository; they are modelled from the spec as opaque immutable value
types with structural equality that carry their stable textual rendering.
-/

namespace Casm

/-- Modelled from the spec: a direct cell reference from the external operand
model. Opaque here; it carries only its stable textual rendering, consumed
verbatim by the rendering pass. -/
structure CellRef where
  render : String
deriving DecidableEq

/-- Modelled from the spec: an inline immediate constant from the external
operand model, opaque but for its stable textual rendering. -/
structure Immediate where
  render : String
deriving DecidableEq

/-- Modelled from the spec: the indirect-or-immediate operand choice of the
external operand model (`DerefOrImmediate` in the operand module). -/
inductive DerefOrImmediate where
  | Deref (cell : CellRef)
  | Immediate (imm : Immediate)
deriving DecidableEq

/-- Modelled from the spec: the kind of binary operation carried by a
binary-op result operand; opaque but for its stable textual rendering. -/
structure Operation where
  render : String
deriving DecidableEq

/-- Modelled from the spec: a binary operation of two sub-operands, the
payload of the binary-op result operand (`BinOpOperand` in the operand
module); the size law inspects only the kind of the second sub-operand `b`. -/
structure BinOpOperand where
  op : Operation
  a : DerefOrImmediate
  b : DerefOrImmediate
deriving DecidableEq

/-- Modelled from the spec: the result-operand set of the external operand
model (`ResOperand` in the operand module): indirect, double-indirect,
immediate, or a binary operation of two sub-operands. -/
inductive ResOperand where
  | Deref (cell : CellRef)
  | DoubleDeref (cell : CellRef) (offset : Int)
  | Immediate (imm : Immediate)
  | BinOp (op : BinOpOperand)
deriving DecidableEq

/-- Modelled from the spec: the stable textual rendering of an
indirect-or-immediate operand, consumed verbatim. -/
def DerefOrImmediate.render : DerefOrImmediate → String
  | .Deref c => c.render
  | .Immediate i => i.render

/-- Modelled from the spec: the stable textual rendering of a result operand,
consumed verbatim. The exact composite text of the double-indirect and
binary-op forms belongs to the external operand model. -/
def ResOperand.render : ResOperand → String
  | .Deref c => c.render
  | .DoubleDeref c off => "[[" ++ c.render ++ "] + " ++ toString off ++ "]"
  | .Immediate i => i.render
  | .BinOp op => op.a.render ++ " " ++ op.op.render ++ " " ++ op.b.render

/-- Modelled from the spec: a hint from the external hint subsystem, exposing
only its textual rendering (its pythonic form), consumed verbatim. -/
structure Hint where
  pythonic : String
deriving DecidableEq

/-- Modelled from the spec: the textual rendering a hint exposes. -/
def Hint.get_pythonic_hint (h : Hint) : String :=
  h.pythonic

/-- Size of an instruction based on whether the res operand includes an
immediate or not, from `op_size_based_on_res_operands`. -/
def op_size_based_on_res_operands : ResOperand → Nat
  | .Deref _ => 1
  | .DoubleDeref _ _ => 1
  | .Immediate _ => 2
  | .BinOp op =>
    match op.b with
    | .Immediate _ => 2
    | .Deref _ => 1

/-- A call instruction "call rel/abs target", from `CallInstruction`. -/
structure CallInstruction where
  target : DerefOrImmediate
  relative : Bool
deriving DecidableEq

/-- Word size of a call instruction, from `CallInstruction::op_size`. -/
def CallInstruction.op_size (i : CallInstruction) : Nat :=
  match i.target with
  | .Deref _ => 1
  | .Immediate _ => 2

/-- The instruction body "jmp rel/abs target", from `JumpInstruction`. -/
structure JumpInstruction where
  target : DerefOrImmediate
  relative : Bool
deriving DecidableEq

/-- Word size of a jump instruction, from `JumpInstruction::op_size`. -/
def JumpInstruction.op_size (i : JumpInstruction) : Nat :=
  match i.target with
  | .Deref _ => 1
  | .Immediate _ => 2

/-- The instruction body "jmp rel jump_offset if condition != 0", from
`JnzInstruction`. -/
structure JnzInstruction where
  jump_offset : DerefOrImmediate
  condition : CellRef
deriving DecidableEq

/-- Word size of a jnz instruction, from `JnzInstruction::op_size`. -/
def JnzInstruction.op_size (i : JnzInstruction) : Nat :=
  match i.jump_offset with
  | .Deref _ => 1
  | .Immediate _ => 2

/-- The instruction body "a = b" for two operands a, b, from
`AssertEqInstruction`. -/
structure AssertEqInstruction where
  a : CellRef
  b : ResOperand
deriving DecidableEq

/-- Word size of an assert-eq instruction, from `AssertEqInstruction::op_size`. -/
def AssertEqInstruction.op_size (i : AssertEqInstruction) : Nat :=
  op_size_based_on_res_operands i.b

/-- A return instruction "ret", from `RetInstruction`. -/
structure RetInstruction where
deriving DecidableEq

/-- Word size of a return instruction, from `RetInstruction::op_size`. -/
def RetInstruction.op_size (_ : RetInstruction) : Nat :=
  1

/-- The instruction body "ap += op" for a given operand op, from
`AddApInstruction`. -/
structure AddApInstruction where
  operand : ResOperand
deriving DecidableEq

/-- Word size of an add-ap instruction, from `AddApInstruction::op_size`. -/
def AddApInstruction.op_size (i : AddApInstruction) : Nat :=
  op_size_based_on_res_operands i.operand

/-- A blake2s instruction, from `Blake2sCompressInstruction`. -/
structure Blake2sCompressInstruction where
  state : CellRef
  byte_count : CellRef
  message : CellRef
  finalize : Bool
deriving DecidableEq

/-- Word size of a blake2s instruction, from
`Blake2sCompressInstruction::op_size`. -/
def Blake2sCompressInstruction.op_size (_ : Blake2sCompressInstruction) : Nat :=
  1

/-- The closed set of Cairo instruction bodies, from `InstructionBody`. -/
inductive InstructionBody where
  | AddAp (insn : AddApInstruction)
  | AssertEq (insn : AssertEqInstruction)
  | QM31AssertEq (insn : AssertEqInstruction)
  | Call (insn : CallInstruction)
  | Jnz (insn : JnzInstruction)
  | Jump (insn : JumpInstruction)
  | Ret (insn : RetInstruction)
  | Blake2sCompress (insn : Blake2sCompressInstruction)
deriving DecidableEq

/-- Word-size dispatch over instruction bodies, from
`InstructionBody::op_size`. -/
def InstructionBody.op_size : InstructionBody → Nat
  | .AddAp insn => insn.op_size
  | .AssertEq insn => insn.op_size
  | .QM31AssertEq insn => insn.op_size
  | .Call insn => insn.op_size
  | .Jump insn => insn.op_size
  | .Jnz insn => insn.op_size
  | .Ret insn => insn.op_size
  | .Blake2sCompress insn => insn.op_size

/-- An instruction, including the ap++ flag (inc_ap), from `Instruction`. -/
structure Instruction where
  body : InstructionBody
  inc_ap : Bool
  hints : List Hint
deriving DecidableEq

/-- Rendering of a call instruction, from the `Display` impl for
`CallInstruction`. -/
def CallInstruction.display (i : CallInstruction) : String :=
  "call " ++ (if i.relative then "rel" else "abs") ++ " " ++ i.target.render

/-- Rendering of a jump instruction, from the `Display` impl for
`JumpInstruction`. -/
def JumpInstruction.display (i : JumpInstruction) : String :=
  "jmp " ++ (if i.relative then "rel" else "abs") ++ " " ++ i.target.render

/-- Rendering of a jnz instruction, from the `Display` impl for
`JnzInstruction`. -/
def JnzInstruction.display (i : JnzInstruction) : String :=
  "jmp rel " ++ i.jump_offset.render ++ " if " ++ i.condition.render ++ " != 0"

/-- Rendering of an assert-eq instruction, from the `Display` impl for
`AssertEqInstruction`. -/
def AssertEqInstruction.display (i : AssertEqInstruction) : String :=
  i.a.render ++ " = " ++ i.b.render

/-- Rendering of a return instruction, from the `Display` impl for
`RetInstruction`. -/
def RetInstruction.display (_ : RetInstruction) : String :=
  "ret"

/-- Rendering of an add-ap instruction, from the `Display` impl for
`AddApInstruction`. -/
def AddApInstruction.display (i : AddApInstruction) : String :=
  "ap += " ++ i.operand.render

/-- Rendering of a blake2s instruction, from the `Display` impl for
`Blake2sCompressInstruction`. -/
def Blake2sCompressInstruction.display (i : Blake2sCompressInstruction) : String :=
  "blake2s[state=" ++ i.state.render ++ ", message=" ++ i.message.render ++
    ", byte_count=" ++ i.byte_count.render ++ ", finalize=" ++
    (if i.finalize then "true" else "false") ++ "] => [ap + 0]"

/-- Rendering dispatch over instruction bodies, from the `Display` impl for
`InstructionBody`; only the QM31 variant adds a prefix before its payload. -/
def InstructionBody.display : InstructionBody → String
  | .AddAp insn => insn.display
  | .AssertEq insn => insn.display
  | .QM31AssertEq insn => "\x7bQM31\x7d " ++ insn.display
  | .Call insn => insn.display
  | .Jnz insn => insn.display
  | .Jump insn => insn.display
  | .Ret insn => insn.display
  | .Blake2sCompress insn => insn.display

/-- Whether a string starts with the newline character, translating the
starts_with check on the hint text in the `Display` impl for `Instruction`. -/
def startsWithNewline (s : String) : Bool :=
  match s.data with
  | [] => false
  | c :: _ => c = '\n'

/-- One hint line of the instruction rendering, from the loop body of the
`Display` impl for `Instruction`: the wrapped hint text followed by the
newline that writeln appends; the interior spaces are skipped when the hint
text starts with a newline. -/
def hintLine (hint : Hint) : String :=
  if startsWithNewline hint.get_pythonic_hint then
    "%\x7b" ++ hint.get_pythonic_hint ++ "%\x7d" ++ "\n"
  else
    "%\x7b " ++ hint.get_pythonic_hint ++ " %\x7d" ++ "\n"

/-- The hint block of the instruction rendering, from the hint loop of the
`Display` impl for `Instruction`. -/
def hintsDisplay : List Hint → String
  | [] => ""
  | h :: t => hintLine h ++ hintsDisplay t

/-- Rendering of a full instruction, from the `Display` impl for
`Instruction`: the hint lines, the body, then the ap++ suffix when the
inc_ap flag is set. -/
def Instruction.display (i : Instruction) : String :=
  hintsDisplay i.hints ++ i.body.display ++ (if i.inc_ap then ", ap++" else "")

/-!
Spec-side definitions, written from the words of the spec and compared
against the definitions above that were translated from the code.
-/

/-- Spec-side size law of an indirect-or-immediate operand: 1 word if it is
an indirect (cell) reference, 2 words if it is an inline immediate. -/
def specIndirectOrImmediateSize : DerefOrImmediate → Nat
  | .Deref _ => 1
  | .Immediate _ => 2

/-- Spec-side wrapping of one hint: the wrapped form on a line of its own,
with the interior spaces omitted when the hint text begins with a newline. -/
def specHintWrap (h : Hint) : String :=
  if startsWithNewline h.get_pythonic_hint then
    "%\x7b" ++ h.get_pythonic_hint ++ "%\x7d"
  else
    "%\x7b " ++ h.get_pythonic_hint ++ " %\x7d"

/-- Spec-side layout of a list of lines: each line on its own line, with no
trailing newline after the final line. -/
def specLines : List String → String
  | [] => ""
  | [l] => l
  | l :: l2 :: ls => l ++ "\n" ++ specLines (l2 :: ls)

/-- A code hint line is the spec wrapping of the hint followed by the newline
that puts the next output on its own line. -/
theorem hintLine_eq_wrap (h : Hint) : hintLine h = specHintWrap h ++ "\n" := by
  unfold hintLine specHintWrap
  split <;> rfl

/-- Emitting the hint lines and then a final piece of text is the spec-side
line layout of the wrapped hints followed by that final line. -/
theorem hintsDisplay_append_specLines (hs : List Hint) (rest : String) :
    hintsDisplay hs ++ rest = specLines (hs.map specHintWrap ++ [rest]) := by
  induction hs with
  | nil => rfl
  | cons h t ih =>
    cases t with
    | nil =>
      simp only [hintsDisplay, List.map_cons, List.map_nil, List.nil_append,
        List.cons_append, specLines, hintLine_eq_wrap, String.append_assoc]
      rfl
    | cons h2 t2 =>
      simp only [hintsDisplay, List.map_cons, List.cons_append, specLines,
        hintLine_eq_wrap, String.append_assoc] at ih ⊢
      rw [ih]
      rfl

/-- C1: the size contribution of a binary-op result operand computed by
op_size_based_on_res_operands depends only on the right sub-operand b: it is
2 when b is an immediate and 1 when b is an indirect reference, whatever the
left sub-operand a is; in particular BinOp of an indirect with an immediate
and BinOp of two immediates both size to 2, and BinOp of an immediate with
an indirect sizes to 1. -/
theorem binop_size_depends_only_on_right :
    (∀ (op : Operation) (a : DerefOrImmediate) (i : Immediate),
      op_size_based_on_res_operands (.BinOp ⟨op, a, .Immediate i⟩) = 2) ∧
    (∀ (op : Operation) (a : DerefOrImmediate) (c : CellRef),
      op_size_based_on_res_operands (.BinOp ⟨op, a, .Deref c⟩) = 1) ∧
    (∀ (op : Operation) (a1 a2 b : DerefOrImmediate),
      op_size_based_on_res_operands (.BinOp ⟨op, a1, b⟩) =
        op_size_based_on_res_operands (.BinOp ⟨op, a2, b⟩)) ∧
    (∀ (op : Operation) (c : CellRef) (i1 i2 : Immediate),
      op_size_based_on_res_operands (.BinOp ⟨op, .Deref c, .Immediate i1⟩) = 2 ∧
      op_size_based_on_res_operands (.BinOp ⟨op, .Immediate i2, .Immediate i1⟩) = 2 ∧
      op_size_based_on_res_operands (.BinOp ⟨op, .Immediate i2, .Deref c⟩) = 1) := by
  refine ⟨fun op a i => rfl, fun op a c => rfl, fun op a1 a2 b => ?_,
    fun op c i1 i2 => ⟨rfl, rfl, rfl⟩⟩
  cases b <;> rfl

/-- C2: an indirect-or-immediate operand contributes 1 exactly when it is an
indirect cell reference and 2 exactly when it is an inline immediate; among
result operands, indirect and double-indirect contribute 1 and immediate
contributes 2; and AddAp, AssertEq and QM31AssertEq each return the
result-operand size law applied to their single result operand as their
op_size. -/
theorem indirect_or_immediate_size_law :
    (∀ d : DerefOrImmediate,
      (specIndirectOrImmediateSize d = 1 ↔ ∃ c, d = .Deref c) ∧
      (specIndirectOrImmediateSize d = 2 ↔ ∃ i, d = .Immediate i)) ∧
    (∀ c : CellRef, op_size_based_on_res_operands (.Deref c) = 1) ∧
    (∀ (c : CellRef) (off : Int),
      op_size_based_on_res_operands (.DoubleDeref c off) = 1) ∧
    (∀ i : Immediate, op_size_based_on_res_operands (.Immediate i) = 2) ∧
    (∀ insn : AddApInstruction,
      (InstructionBody.AddAp insn).op_size =
        op_size_based_on_res_operands insn.operand) ∧
    (∀ insn : AssertEqInstruction,
      (InstructionBody.AssertEq insn).op_size =
          op_size_based_on_res_operands insn.b ∧
      (InstructionBody.QM31AssertEq insn).op_size =
          op_size_based_on_res_operands insn.b) := by
  refine ⟨fun d => ?_, fun c => rfl, fun c off => rfl, fun i => rfl,
    fun insn => rfl, fun insn => ⟨rfl, rfl⟩⟩
  cases d with
  | Deref c =>
    exact ⟨⟨fun _ => ⟨c, rfl⟩, fun _ => rfl⟩,
      ⟨fun h => by simp [specIndirectOrImmediateSize] at h, fun h => by simp at h⟩⟩
  | Immediate i =>
    exact ⟨⟨fun h => by simp [specIndirectOrImmediateSize] at h, fun h => by simp at h⟩,
      ⟨fun _ => ⟨i, rfl⟩, fun _ => rfl⟩⟩

/-- C3: Call and Jump size to 1 on an indirect target and to 2 on an
immediate target, and their op_size never depends on the relative flag. -/
theorem call_jump_size_ignores_relative_flag :
    (∀ (c : CellRef) (rel : Bool),
      CallInstruction.op_size ⟨.Deref c, rel⟩ = 1 ∧
      JumpInstruction.op_size ⟨.Deref c, rel⟩ = 1) ∧
    (∀ (i : Immediate) (rel : Bool),
      CallInstruction.op_size ⟨.Immediate i, rel⟩ = 2 ∧
      JumpInstruction.op_size ⟨.Immediate i, rel⟩ = 2) ∧
    (∀ t : DerefOrImmediate,
      CallInstruction.op_size ⟨t, true⟩ = CallInstruction.op_size ⟨t, false⟩ ∧
      JumpInstruction.op_size ⟨t, true⟩ = JumpInstruction.op_size ⟨t, false⟩) := by
  refine ⟨fun c rel => ⟨rfl, rfl⟩, fun i rel => ⟨rfl, rfl⟩, fun t => ?_⟩
  cases t <;> exact ⟨rfl, rfl⟩

/-- C4: Jnz sizes to 1 on an indirect jump offset and to 2 on an immediate
one, and its op_size never depends on the condition cell. -/
theorem jnz_size_ignores_condition :
    (∀ (c cond : CellRef), JnzInstruction.op_size ⟨.Deref c, cond⟩ = 1) ∧
    (∀ (i : Immediate) (cond : CellRef),
      JnzInstruction.op_size ⟨.Immediate i, cond⟩ = 2) ∧
    (∀ (off : DerefOrImmediate) (c1 c2 : CellRef),
      JnzInstruction.op_size ⟨off, c1⟩ = JnzInstruction.op_size ⟨off, c2⟩) := by
  refine ⟨fun c cond => rfl, fun i cond => rfl, fun off c1 c2 => ?_⟩
  cases off <;> rfl

/-- C5: Ret has op_size 1, and Blake2sCompress has op_size 1 for every
choice of its state, byte-count and message cells and its finalize flag. -/
theorem ret_blake2s_size_one :
    (∀ r : RetInstruction, r.op_size = 1) ∧
    (∀ (state byte_count message : CellRef) (fin : Bool),
      Blake2sCompressInstruction.op_size ⟨state, byte_count, message, fin⟩ = 1) :=
  ⟨fun _ => rfl, fun _ _ _ _ => rfl⟩

/-- C10: every instruction body, whatever its variant and operands, has an
op_size of either 1 or 2. -/
theorem op_size_one_or_two (body : InstructionBody) :
    body.op_size = 1 ∨ body.op_size = 2 := by
  cases body with
  | AddAp insn =>
    rcases insn with ⟨operand⟩
    cases operand with
    | BinOp op =>
      rcases op with ⟨o, a, b⟩
      cases b <;> simp [InstructionBody.op_size, AddApInstruction.op_size,
        op_size_based_on_res_operands]
    | _ => simp [InstructionBody.op_size, AddApInstruction.op_size,
        op_size_based_on_res_operands]
  | AssertEq insn =>
    rcases insn with ⟨a, b⟩
    cases b with
    | BinOp op =>
      rcases op with ⟨o, x, y⟩
      cases y <;> simp [InstructionBody.op_size, AssertEqInstruction.op_size,
        op_size_based_on_res_operands]
    | _ => simp [InstructionBody.op_size, AssertEqInstruction.op_size,
        op_size_based_on_res_operands]
  | QM31AssertEq insn =>
    rcases insn with ⟨a, b⟩
    cases b with
    | BinOp op =>
      rcases op with ⟨o, x, y⟩
      cases y <;> simp [InstructionBody.op_size, AssertEqInstruction.op_size,
        op_size_based_on_res_operands]
    | _ => simp [InstructionBody.op_size, AssertEqInstruction.op_size,
        op_size_based_on_res_operands]
  | Call insn =>
    rcases insn with ⟨target, rel⟩
    cases target <;> simp [InstructionBody.op_size, CallInstruction.op_size]
  | Jnz insn =>
    rcases insn with ⟨off, cond⟩
    cases off <;> simp [InstructionBody.op_size, JnzInstruction.op_size]
  | Jump insn =>
    rcases insn with ⟨target, rel⟩
    cases target <;> simp [InstructionBody.op_size, JumpInstruction.op_size]
  | Ret insn => exact Or.inl rfl
  | Blake2sCompress insn => exact Or.inl rfl

/-- C6: the canonical rendering of an instruction puts each hint on its own
line in sequence order before the body, then the body, then the literal
suffix ", ap++" exactly when the inc_ap flag is set, with no trailing
newline after the final line; in particular a relative jump to the indirect
target rendering as the fp-minus-one cell, with inc_ap set and no hints,
renders exactly to "jmp rel [fp-1], ap++". -/
theorem instruction_display_canonical :
    (∀ i : Instruction,
      i.display = specLines (i.hints.map specHintWrap ++
        [i.body.display ++ (if i.inc_ap then ", ap++" else "")])) ∧
    Instruction.display ⟨.Jump ⟨.Deref ⟨"[fp-1]"⟩, true⟩, true, []⟩ =
      "jmp rel [fp-1], ap++" := by
  refine ⟨fun i => ?_, rfl⟩
  show hintsDisplay i.hints ++ i.body.display ++ _ = _
  rw [String.append_assoc, hintsDisplay_append_specLines]

/-- C7: a hint whose rendered text does not begin with a newline renders as
its text wrapped with percent-brace delimiters and interior spaces; a hint
whose text begins with a newline renders with the delimiters directly around
the text, with no interior leading space; in particular a hint rendering to
"x = 1" produces that wrapped line before the body of any instruction. -/
theorem hint_display_wrapping :
    (∀ h : Hint, startsWithNewline h.get_pythonic_hint = false →
      hintLine h = "%\x7b " ++ h.get_pythonic_hint ++ " %\x7d" ++ "\n") ∧
    (∀ h : Hint, startsWithNewline h.get_pythonic_hint = true →
      hintLine h = "%\x7b" ++ h.get_pythonic_hint ++ "%\x7d" ++ "\n") ∧
    (∀ (body : InstructionBody) (flag : Bool),
      Instruction.display ⟨body, flag, [⟨"x = 1"⟩]⟩ =
        "%\x7b x = 1 %\x7d" ++ "\n" ++ body.display ++
          (if flag then ", ap++" else "")) := by
  refine ⟨fun h hc => ?_, fun h hc => ?_, fun body flag => ?_⟩
  · simp [hintLine, hc]
  · simp [hintLine, hc]
  · have h1 : hintLine ⟨"x = 1"⟩ ++ hintsDisplay [] = "%\x7b x = 1 %\x7d" ++ "\n" := rfl
    show hintLine ⟨"x = 1"⟩ ++ hintsDisplay [] ++ body.display ++ _ = _
    rw [h1]

/-- Witness for C7: the two wrapping rules evaluated at a hint rendering to
"x = 1" and at a hint whose text begins with a newline. -/
theorem hint_display_wrapping_witness :
    hintLine ⟨"x = 1"⟩ = "%\x7b " ++ "x = 1" ++ " %\x7d" ++ "\n" ∧
    hintLine ⟨"\nx"⟩ = "%\x7b" ++ "\nx" ++ "%\x7d" ++ "\n" :=
  ⟨hint_display_wrapping.1 ⟨"x = 1"⟩ rfl, hint_display_wrapping.2.1 ⟨"\nx"⟩ rfl⟩

/-- C8: every instruction body renders exactly by the mnemonic grammar, with
every operand substituted verbatim from the operand model's rendering: add-ap
as an ap increment, assert-eq as an equation, QM31 assert-eq with the QM31
prefix, call and jump with their rel or abs flag, jnz always with the
literal rel, ret as "ret", and blake2s with its labelled operand list. -/
theorem body_display_grammar :
    (∀ op : ResOperand,
      InstructionBody.display (.AddAp ⟨op⟩) = "ap += " ++ op.render) ∧
    (∀ (a : CellRef) (b : ResOperand),
      InstructionBody.display (.AssertEq ⟨a, b⟩) = a.render ++ " = " ++ b.render ∧
      InstructionBody.display (.QM31AssertEq ⟨a, b⟩) =
        "\x7bQM31\x7d " ++ (a.render ++ " = " ++ b.render)) ∧
    (∀ (t : DerefOrImmediate) (rel : Bool),
      InstructionBody.display (.Call ⟨t, rel⟩) =
        "call " ++ (if rel then "rel" else "abs") ++ " " ++ t.render ∧
      InstructionBody.display (.Jump ⟨t, rel⟩) =
        "jmp " ++ (if rel then "rel" else "abs") ++ " " ++ t.render) ∧
    (∀ (off : DerefOrImmediate) (cond : CellRef),
      InstructionBody.display (.Jnz ⟨off, cond⟩) =
        "jmp rel " ++ off.render ++ " if " ++ cond.render ++ " != 0") ∧
    InstructionBody.display (.Ret ⟨⟩) = "ret" ∧
    (∀ (state byte_count message : CellRef) (fin : Bool),
      InstructionBody.display (.Blake2sCompress ⟨state, byte_count, message, fin⟩) =
        "blake2s[state=" ++ state.render ++ ", message=" ++ message.render ++
          ", byte_count=" ++ byte_count.render ++ ", finalize=" ++
          (if fin then "true" else "false") ++ "] => [ap + 0]") :=
  ⟨fun _ => rfl, fun _ _ => ⟨rfl, rfl⟩, fun _ _ => ⟨rfl, rfl⟩,
    fun _ _ => rfl, rfl, fun _ _ _ _ => rfl⟩

/-- C9: equality of instructions is structural value semantics: two
instructions are equal exactly when their bodies, inc_ap flags and hint
sequences agree, and two instructions that differ only in the order of two
distinct hints are not equal. -/
theorem instruction_eq_structural :
    (∀ i1 i2 : Instruction,
      i1 = i2 ↔ i1.body = i2.body ∧ i1.inc_ap = i2.inc_ap ∧ i1.hints = i2.hints) ∧
    (∀ (b : InstructionBody) (flag : Bool) (h1 h2 : Hint), h1 ≠ h2 →
      (⟨b, flag, [h1, h2]⟩ : Instruction) ≠ ⟨b, flag, [h2, h1]⟩) := by
  constructor
  · intro i1 i2
    constructor
    · rintro rfl
      exact ⟨rfl, rfl, rfl⟩
    · rintro ⟨hb, ha, hh⟩
      cases i1
      cases i2
      simp_all
  · intro b flag h1 h2 hne heq
    apply hne
    have hh := congrArg Instruction.hints heq
    simp only [List.cons.injEq, and_true] at hh
    exact hh.1

/-- Witness for C9: two concrete instructions differing only in the order of
two distinct hints are not equal. -/
theorem instruction_eq_structural_witness :
    (⟨.Ret ⟨⟩, false, [⟨"a"⟩, ⟨"b"⟩]⟩ : Instruction) ≠
      ⟨.Ret ⟨⟩, false, [⟨"b"⟩, ⟨"a"⟩]⟩ :=
  instruction_eq_structural.2 (.Ret ⟨⟩) false ⟨"a"⟩ ⟨"b"⟩ (by decide)

end Casm
